import Mathlib

/-!
Verification of the CampusHireAI extraction-and-ranking core.

Shallow embedding of the algorithmic core of the repository:

* `backend/shortlisting.py` — eligibility filter, candidate scorer,
  ranking & selection engine (`run_shortlisting`);
* `backend/resume_parser.py` — line classifier (`_is_description_line`),
  project extractor (`extract_projects`), skill extractor (`extract_skills`);
* `backend/skill_analyzer.py` — skill gap analyzer (`analyze_skill_gap`).

Modelling conventions:

* Python floats are modelled as `ℚ`; `round(x, d)` is modelled as exact
  round-half-to-even at `d` decimal digits (`pyRound`).
* Python strings are modelled as Lean `String`/`List Char`; `str.lower()`,
  `str.strip()`, `str.title()` and the regular expressions used by the code
  are modelled character-by-character for the ASCII range, which is the
  range exercised by the fixed vocabularies of the source.
* Database rows are modelled as records already joined per applicant
  (profile cgpa, extracted resume skills, best prior offer with 0 = none),
  matching the per-candidate data the Python loop fetches.
-/

/-- Python `str.lower()` (ASCII case mapping, as used on the skill strings). -/
def lowerS (s : String) : String := ⟨s.data.map Char.toLower⟩

/-! ## Data model of the shortlisting core (`shortlisting.py`) -/

/-- Final status assigned to an application by the ranking engine. -/
inductive Status
  | Shortlisted
  | Rejected
deriving DecidableEq

/-- Rejection reasons produced by the eligibility filter
(`"CGPA below eligibility"` and the 1.7× offer filter message). -/
inductive RejectReason
  | cgpaBelowEligibility
  | offerExceedsPackage (best_offer pkg : ℚ)
deriving DecidableEq

/-- The rendered reason string, as written into the result dicts. -/
def RejectReason.message : RejectReason → String
  | .cgpaBelowEligibility => "CGPA below eligibility"
  | .offerExceedsPackage b p =>
      "Existing offer (" ++ toString b ++ " LPA) × 1.7 > drive package (" ++
        toString p ++ " LPA)"

/-- The drive fields read by `run_shortlisting` (step 1). -/
structure Drive where
  eligibility_cgpa : ℚ
  required_skills : List String
  package : ℚ
deriving DecidableEq

/-- One applied candidate, with the per-student data the Python loop
fetches: profile fields, resume `extracted_skills`, and the best prior
offer (`0` when the student has no offers). -/
structure Applicant where
  app_id : Nat
  student_id : Nat
  name : String
  email : String
  branch : String
  cgpa : ℚ
  extracted_skills : List String
  best_offer : ℚ
deriving DecidableEq

/-- The record appended to `scored_candidates` in step 3d. -/
structure ScoredCandidate where
  app_id : Nat
  student_id : Nat
  name : String
  email : String
  branch : String
  cgpa : ℚ
  skill_score : ℚ
  cgpa_score : ℚ
  final_score : ℚ
deriving DecidableEq

/-- The record appended to `rejected_results` in steps 3a/3b. -/
structure RejectedEntry where
  student_id : Nat
  name : String
  status : Status
  reason : RejectReason
  ai_score : ℚ
deriving DecidableEq

/-- An entry of the final `results` list: either an eligibility-filter
rejection (carrying a reason) or a ranked scored candidate with its
resolved status. -/
inductive ResultEntry
  | rejectedEarly (e : RejectedEntry)
  | ranked (c : ScoredCandidate) (status : Status)
deriving DecidableEq

/-- The `status` field of a result entry. -/
def ResultEntry.status : ResultEntry → Status
  | .rejectedEarly e => e.status
  | .ranked _ st => st

/-! ## Rounding (Python `round(x, d)` on our rational model) -/

/-- Round to the nearest integer, ties to the even integer
(the rounding used by Python's `round`). -/
def roundHalfEven (q : ℚ) : ℤ :=
  if q - ⌊q⌋ < 1/2 then ⌊q⌋
  else if 1/2 < q - ⌊q⌋ then ⌊q⌋ + 1
  else if ⌊q⌋ % 2 = 0 then ⌊q⌋ else ⌊q⌋ + 1

/-- Python `round(q, d)` on the rational model. -/
def pyRound (d : Nat) (q : ℚ) : ℚ := (roundHalfEven (q * 10 ^ d) : ℚ) / 10 ^ d

/-! ## Eligibility filter and scorer (step 3 of `run_shortlisting`) -/

/-- Step 3d: `skill_score = len(matched) / len(required_lower)` with the
empty-requirement guard (`skill_score = 1.0`). -/
def skillScore (required extracted : List String) : ℚ :=
  let required_lower := required.map lowerS
  let extracted_lower := extracted.map lowerS
  if required_lower.length > 0 then
    ((required_lower.filter (fun s => extracted_lower.contains s)).length : ℚ) /
      required_lower.length
  else 1

/-- Steps 3a–3d for one applicant: CGPA eligibility check, optional 1.7×
offer filter, then scoring.  `Sum.inl` is a scored candidate, `Sum.inr` an
eligibility-filter rejection. -/
def processApp (drive : Drive) (apply_offer_filter : Bool) (a : Applicant) :
    ScoredCandidate ⊕ RejectedEntry :=
  if a.cgpa < drive.eligibility_cgpa then
    .inr ⟨a.student_id, a.name, .Rejected, .cgpaBelowEligibility, 0⟩
  else if apply_offer_filter = true ∧ 0 < drive.package ∧ 0 < a.best_offer ∧
      drive.package < a.best_offer * (17/10) then
    .inr ⟨a.student_id, a.name, .Rejected,
      .offerExceedsPackage a.best_offer drive.package, 0⟩
  else
    let ss := skillScore drive.required_skills a.extracted_skills
    let cs := a.cgpa / 10
    .inl ⟨a.app_id, a.student_id, a.name, a.email, a.branch, a.cgpa,
      pyRound 4 ss, pyRound 4 cs, pyRound 4 (6/10 * ss + 4/10 * cs)⟩

/-- The `scored_candidates` list built by step 3, in application order. -/
def scoredOf (drive : Drive) (f : Bool) (apps : List Applicant) :
    List ScoredCandidate :=
  (apps.map (processApp drive f)).filterMap Sum.getLeft?

/-- The `rejected_results` list built by step 3, in application order. -/
def rejectedOf (drive : Drive) (f : Bool) (apps : List Applicant) :
    List RejectedEntry :=
  (apps.map (processApp drive f)).filterMap Sum.getRight?

/-! ## Ranking & selection engine (step 4 of `run_shortlisting`) -/

/-- Insert a candidate into a descending-by-`final_score` list, before the
first candidate whose score is not larger (so that, combined with
`sortByScoreDesc` folding from the right, candidates with equal score keep
their original relative order — the stable sort of Python's `list.sort`). -/
def insertDesc (x : ScoredCandidate) : List ScoredCandidate → List ScoredCandidate
  | [] => [x]
  | y :: ys => if y.final_score ≤ x.final_score then x :: y :: ys
               else y :: insertDesc x ys

/-- Model of `scored_candidates.sort(key=final_score, reverse=True)`: a
stable sort by `final_score` descending. -/
def sortByScoreDesc : List ScoredCandidate → List ScoredCandidate
  | [] => []
  | x :: xs => insertDesc x (sortByScoreDesc xs)

/-- Model of `top_n is None or i < top_n`. -/
def withinTopB (top_n : Option Nat) (i : Nat) : Bool :=
  match top_n with
  | none => true
  | some k => decide (i < k)

/-- Status of the `i`-th candidate (0-based) in sorted order:
`Shortlisted` iff `final_score >= threshold and (top_n is None or i < top_n)`. -/
def statusFor (threshold : ℚ) (top_n : Option Nat) (i : Nat)
    (c : ScoredCandidate) : Status :=
  if threshold ≤ c.final_score ∧ withinTopB top_n i = true then .Shortlisted
  else .Rejected

/-- The ranked portion of the results: each sorted candidate paired with
its resolved status. -/
def rankedWith (threshold : ℚ) (top_n : Option Nat)
    (l : List ScoredCandidate) : List (ScoredCandidate × Status) :=
  l.enum.map (fun p => (p.2, statusFor threshold top_n p.1 p.2))

/-- The dictionary returned by `run_shortlisting`. -/
structure RunResult where
  threshold : ℚ
  top_n : Option Nat
  offer_filter_applied : Bool
  total : Nat
  shortlisted : Nat
  rejected : Nat
  results : List ResultEntry
deriving DecidableEq

/-- Model of `run_shortlisting(drive_id, threshold, top_n, apply_offer_filter)`
for a resolved drive and its applied candidates. -/
def run_shortlisting (drive : Drive) (threshold : ℚ) (top_n : Option Nat)
    (apply_offer_filter : Bool) (apps : List Applicant) : RunResult :=
  let rejected_results := rejectedOf drive apply_offer_filter apps
  let ranked := rankedWith threshold top_n
    (sortByScoreDesc (scoredOf drive apply_offer_filter apps))
  { threshold := threshold
    top_n := top_n
    offer_filter_applied := apply_offer_filter
    total := apps.length
    shortlisted := ranked.countP (fun p => decide (p.2 = Status.Shortlisted))
    rejected := rejected_results.length +
      ranked.countP (fun p => decide (p.2 = Status.Rejected))
    results := rejected_results.map ResultEntry.rejectedEarly ++
      ranked.map (fun p => ResultEntry.ranked p.1 p.2) }

/-! ## Resume parser (`resume_parser.py`): string primitives -/

/-- Python `str.strip()` on a character list (ASCII whitespace). -/
def trimChars (l : List Char) : List Char :=
  ((l.dropWhile Char.isWhitespace).reverse.dropWhile Char.isWhitespace).reverse

/-- Python `str.strip()`. -/
def stripS (s : String) : String := ⟨trimChars s.data⟩

/-- Python `str.title()` as a character fold: a letter following a
non-letter is upper-cased, a letter following a letter is lower-cased,
other characters pass through (ASCII). -/
def titleChars : List Char → Bool → List Char
  | [], _ => []
  | c :: cs, prev =>
      (if c.isAlpha then (if prev then c.toLower else c.toUpper) else c) ::
        titleChars cs c.isAlpha

/-- Python `str.title()` (ASCII). -/
def titleS (s : String) : String := ⟨titleChars s.data false⟩

/-! ## Skill extractor (`extract_skills`) -/

/-- The predefined `SKILL_LIST`, verbatim and in source order. -/
def SKILL_LIST : List String := [
  "python", "java", "javascript", "typescript", "c++", "c#", "c",
  "react", "angular", "vue", "node.js", "express", "fastapi", "django",
  "flask", "spring boot", "html", "css", "tailwind",
  "sql", "postgresql", "mysql", "mongodb", "redis", "firebase",
  "supabase", "aws", "azure", "gcp", "docker", "kubernetes",
  "git", "github", "linux", "rest api", "graphql",
  "machine learning", "deep learning", "nlp", "computer vision",
  "tensorflow", "pytorch", "scikit-learn", "pandas", "numpy",
  "data analysis", "data science", "power bi", "tableau",
  "figma", "ui/ux", "agile", "scrum", "jira",
  "communication", "teamwork", "leadership", "problem solving"]

/-- Python regex `\w` (ASCII range): letters, digits, underscore. -/
def isWordChar (c : Char) : Bool := c.isAlphanum || c = '_'

/-- Whether position `i` of `s` holds a word character. -/
def wordCharAt (s : List Char) (i : Nat) : Bool :=
  match s.get? i with
  | some c => isWordChar c
  | none => false

/-- Python regex `\b` at position `i` of `s`: exactly one of the two
adjacent positions holds a word character. -/
def boundaryAt (s : List Char) (i : Nat) : Bool :=
  (if i = 0 then false else wordCharAt s (i - 1)) != wordCharAt s i

/-- One match attempt of `re.search(r'\b' + re.escape(pat) + r'\b', s)`
at position `i` (the pattern is a regex-escaped literal). -/
def matchesAt (pat s : List Char) (i : Nat) : Bool :=
  decide ((s.drop i).take pat.length = pat) && boundaryAt s i &&
    boundaryAt s (i + pat.length)

/-- Model of `re.search(r'\b' + re.escape(pat) + r'\b', s) is not None`. -/
def searchWord (pat s : List Char) : Bool :=
  (List.range (s.length + 1)).any (fun i => matchesAt pat s i)

/-- Step 1 of `extract_skills`: keyword matching of every `SKILL_LIST`
entry against the lowercased text, collecting `skill.title()`. -/
def extract_skills_keyword (text : String) : List String :=
  SKILL_LIST.foldl
    (fun acc skill =>
      if searchWord skill.data (lowerS text).data then acc ++ [titleS skill]
      else acc) []

/-- A named entity produced by the spaCy pass (label and surface text). -/
structure Ent where
  label : String
  text : String

/-- Model of `extract_skills(text)`, with the spaCy entity sequence `doc.ents` as an
explicit input (a missing spaCy model corresponds to `ents = []`). -/
def extract_skills (text : String) (ents : List Ent) : List String :=
  let step1 := extract_skills_keyword text
  ents.foldl
    (fun acc e =>
      if e.label = "ORG" ∨ e.label = "PRODUCT" then
        let skill_name := stripS e.text
        if (SKILL_LIST.map lowerS).contains (lowerS skill_name) then
          let title_name := titleS skill_name
          if acc.contains title_name then acc else acc ++ [title_name]
        else acc
      else acc) step1

/-! ## Line classifier (`_is_description_line`) -/

/-- The bullet/symbol characters of `_is_description_line` and
`bullet_clean_re`. -/
def bulletChars : List Char :=
  ['•', '-', '*', '◦', '▪', '○', '●', '→', '▸', '►', '✓', '✔', '☑']

/-- The fixed `action_verbs` tuple, verbatim (note the trailing spaces of
`"It "`, `"A "`, `"An "`). -/
def actionVerbs : List String := [
  "Developed", "Built", "Created", "Implemented", "Designed",
  "Integrated", "Used", "Utilized", "Deployed", "Configured",
  "Managed", "Led", "Worked", "Collaborated", "Improved",
  "Optimized", "Reduced", "Increased", "Achieved", "Established",
  "Wrote", "Tested", "Debugged", "Resolved", "Fixed",
  "Added", "Updated", "Maintained", "Migrated", "Refactored",
  "Automated", "Analyzed", "Researched", "Conducted", "Performed",
  "Ensured", "Enhanced", "Enabled", "Generated", "Processed",
  "Transformed", "Applied", "Leveraged", "Incorporated",
  "Responsible", "Assisted", "Supported", "Contributed",
  "Constructed", "Programmed", "Engineered", "Architected",
  "Streamlined", "Spearheaded", "Initiated", "Orchestrated",
  "Secured", "Handled", "Executed", "Delivered", "Published",
  "Presented", "Trained", "Mentored", "Supervised",
  "The", "This", "It ", "A ", "An "]

/-- The separator characters of the regex `[|–—:]`. -/
def sepChars : List Char := ['|', '–', '—', ':']

/-- Model of `_is_description_line(line)`: blank, bullet-prefixed, lowercase-first,
action-verb-prefixed, or long separator-free lines are descriptions;
everything else is a title. -/
def is_description_line (line : String) : Bool :=
  let stripped := trimChars line.data
  if stripped = [] then true
  else if bulletChars.contains stripped.headI then true
  else if stripped.headI.isLower then true
  else if actionVerbs.any (fun v => v.data.isPrefixOf stripped) then true
  else if decide (stripped.length > 80) &&
      !(stripped.any (fun ch => sepChars.contains ch)) then true
  else false

/-! ## Project extractor (`extract_projects`) -/

/-- A project record `{"name": ..., "desc": ...}`. -/
structure Project where
  name : String
  desc : String
deriving DecidableEq

/-- The alternatives of `project_section_re` (matched as a lowercase
prefix, as `re.match` with `IGNORECASE` does). -/
def projectAliases : List String :=
  ["projects", "academic projects", "personal projects", "major projects",
   "mini projects", "key projects", "selected projects"]

/-- Prefix match of any alias against an (already lowercased) line. -/
def matchesAlias (aliases : List String) (t : List Char) : Bool :=
  aliases.any (fun a => a.data.isPrefixOf t)

/-- Model of `project_section_re.match(stripped)`. -/
def projectSectionMatch (s : List Char) : Bool :=
  matchesAlias projectAliases (s.map Char.toLower)

/-- The literal alternatives of `section_header_re`. -/
def plainSectionHeaders : List String :=
  ["education", "experience", "work experience", "skills", "technical skills",
   "certifications", "achievements", "awards", "hobbies", "interests",
   "references", "publications", "summary", "objective", "contact",
   "activities"]

/-- The `pre.?post` alternatives of `section_header_re` (`.?` is one
optional arbitrary character). -/
def dotOptMatch (pre post : String) (t : List Char) : Bool :=
  pre.data.isPrefixOf t &&
    (post.data.isPrefixOf (t.drop pre.length) ||
     post.data.isPrefixOf (t.drop (pre.length + 1)))

/-- Model of `section_header_re.match(stripped)`. -/
def sectionHeaderMatch (s : List Char) : Bool :=
  let t := s.map Char.toLower
  matchesAlias plainSectionHeaders t || dotOptMatch "extra" "curricular" t ||
    dotOptMatch "co" "curricular" t

/-- Model of `bullet_clean_re.sub('', stripped)`: drop one leading bullet character
and the whitespace following it. -/
def cleanBullet (s : List Char) : List Char :=
  match s with
  | c :: rest => if bulletChars.contains c then rest.dropWhile Char.isWhitespace
                 else s
  | [] => s

/-- Model of `bullet_clean_re.sub('', stripped).strip()`. -/
def cleanDesc (s : List Char) : List Char := trimChars (cleanBullet s)

/-- Append a cleaned description fragment to the current project,
joined with `" • "` when a description is already present. -/
def appendDesc (p : Project) (clean : String) : Project :=
  if p.desc ≠ "" then ⟨p.name, p.desc ++ " • " ++ clean⟩ else ⟨p.name, clean⟩

/-- The line loop of `extract_projects`: `inSec` is the
`in_projects_section` flag, `cur` the in-progress project, `acc` the
finished projects.  Hitting another section header while inside the region
executes `break`, after which the in-progress project is flushed. -/
def projLoop : List String → Bool → Option Project → List Project → List Project
  | [], _, cur, acc => acc ++ cur.toList
  | line :: rest, inSec, cur, acc =>
      let stripped := trimChars line.data
      if stripped = [] then projLoop rest inSec cur acc
      else if projectSectionMatch stripped then projLoop rest true cur acc
      else if !inSec then projLoop rest false cur acc
      else if sectionHeaderMatch stripped then acc ++ cur.toList
      else if is_description_line line then
        match cur with
        | some p =>
            if cleanDesc stripped ≠ [] then
              projLoop rest true (some (appendDesc p ⟨cleanDesc stripped⟩)) acc
            else projLoop rest true cur acc
        | none => projLoop rest true none acc
      else projLoop rest true (some ⟨⟨stripped.take 150⟩, ""⟩) (acc ++ cur.toList)

/-- Python `text.split("\\n")` on a character list (keeps empty pieces). -/
def splitLinesAux : List Char → List Char → List (List Char)
  | [], acc => [acc.reverse]
  | c :: cs, acc =>
      if c = '\n' then acc.reverse :: splitLinesAux cs []
      else splitLinesAux cs (c :: acc)

/-- Model of `extract_projects(text)`. -/
def extract_projects (text : String) : List Project :=
  projLoop ((splitLinesAux text.data []).map (fun l => ⟨l⟩)) false none []

/-! ## Skill gap analyzer (`analyze_skill_gap`) -/

/-- The comparison part of `analyze_skill_gap`'s return value. -/
structure GapResult where
  matched_skills : List String
  missing_skills : List String
  match_percentage : ℚ
deriving DecidableEq

/-- The skill comparison of `analyze_skill_gap`, as a function of the
drive's `required_skills` and the student's `extracted_skills`. -/
def analyze_skill_gap (required extracted : List String) : GapResult :=
  let extracted_lower := extracted.map lowerS
  let matched := required.filter (fun s => extracted_lower.contains (lowerS s))
  let missing := required.filter (fun s => !extracted_lower.contains (lowerS s))
  let match_pct : ℚ :=
    if required ≠ [] then (matched.length : ℚ) / required.length * 100 else 100
  ⟨matched, missing, pyRound 2 match_pct⟩

/-- The spec's notion, written from the spec's words for comparison with
the code: "the phrase occurs as a whole word/phrase in the text", i.e. at
some position with no word character immediately adjacent on either side. -/
def specOccursWholePhrase (phrase text : List Char) : Bool :=
  (List.range (text.length + 1)).any
    (fun i => decide ((text.drop i).take phrase.length = phrase) &&
      !(decide (1 ≤ i) && wordCharAt text (i - 1)) &&
      !(wordCharAt text (i + phrase.length)))

/-! ## Helper lemmas about `processApp` -/

theorem processApp_inr_status {drive : Drive} {f : Bool} {a : Applicant}
    {e : RejectedEntry} (h : processApp drive f a = Sum.inr e) :
    e.status = Status.Rejected ∧ e.ai_score = 0 := by
  unfold processApp at h
  split at h
  · cases h; exact ⟨rfl, rfl⟩
  · split at h
    · cases h; exact ⟨rfl, rfl⟩
    · cases h

theorem mem_rejectedOf {drive : Drive} {f : Bool} {apps : List Applicant}
    {a : Applicant} {e : RejectedEntry} (ha : a ∈ apps)
    (h : processApp drive f a = Sum.inr e) :
    e ∈ rejectedOf drive f apps := by
  unfold rejectedOf
  refine List.mem_filterMap.mpr ⟨Sum.inr e, ?_, rfl⟩
  rw [← h]
  exact List.mem_map_of_mem _ ha

theorem mem_scoredOf {drive : Drive} {f : Bool} {apps : List Applicant}
    {sc : ScoredCandidate} (h : sc ∈ scoredOf drive f apps) :
    ∃ b ∈ apps, processApp drive f b = Sum.inl sc := by
  unfold scoredOf at h
  obtain ⟨x, hx, hxe⟩ := List.mem_filterMap.mp h
  obtain ⟨b, hb, rfl⟩ := List.mem_map.mp hx
  refine ⟨b, hb, ?_⟩
  cases hpb : processApp drive f b with
  | inl s => rw [hpb] at hxe; cases hxe; rfl
  | inr e => rw [hpb] at hxe; cases hxe

/-! ## C1 — the scorer's formulas -/

/-- C1: For every eligible candidate (one that passes the CGPA check and the
offer filter), the scorer produces `skill_score` = number of required skills
(lowercased) occurring in the candidate's lowercased extracted-skill list,
divided by the number of required skills (`1.0` when the required list is
empty), `cgpa_score = cgpa / 10`, and
`final_score = round(0.6*skill_score + 0.4*cgpa_score, 4)`. -/
theorem c1_scorer_formulas (drive : Drive) (f : Bool) (a : Applicant)
    (h1 : ¬ a.cgpa < drive.eligibility_cgpa)
    (h2 : ¬ (f = true ∧ 0 < drive.package ∧ 0 < a.best_offer ∧
      drive.package < a.best_offer * (17/10))) :
    processApp drive f a = Sum.inl
      { app_id := a.app_id, student_id := a.student_id, name := a.name,
        email := a.email, branch := a.branch, cgpa := a.cgpa,
        skill_score := pyRound 4 (skillScore drive.required_skills a.extracted_skills),
        cgpa_score := pyRound 4 (a.cgpa / 10),
        final_score := pyRound 4
          (6/10 * skillScore drive.required_skills a.extracted_skills +
            4/10 * (a.cgpa / 10)) }
    ∧ skillScore drive.required_skills a.extracted_skills =
        (if drive.required_skills = [] then 1 else
          ((drive.required_skills.map lowerS).countP
              (fun s => (a.extracted_skills.map lowerS).contains s) : ℚ) /
            drive.required_skills.length) := by
  constructor
  · unfold processApp
    rw [if_neg h1, if_neg h2]
  · unfold skillScore
    cases hl : drive.required_skills with
    | nil => simp
    | cons r rs =>
      rw [if_pos (by simp), if_neg (by simp)]
      simp [List.countP_eq_length_filter]

section

attribute [local semireducible] Rat.add Rat.mul Rat.inv Rat.sub Rat.ofScientific

/-- Witness for C1: Example A of the spec (required ["Python","SQL","React"],
cgpa 8.5, skills Python and SQL → final_score 0.74). -/
theorem c1_scorer_formulas_witness :
    (¬ (17/2 : ℚ) < 7)
    ∧ (processApp ⟨7, ["Python", "SQL", "React"], 6⟩ false
          ⟨1, 11, "Asha", "asha@x", "CSE", 17/2, ["Python", "SQL"], 0⟩ = Sum.inl
        { app_id := 1, student_id := 11, name := "Asha", email := "asha@x",
          branch := "CSE", cgpa := 17/2,
          skill_score := pyRound 4 (skillScore ["Python", "SQL", "React"] ["Python", "SQL"]),
          cgpa_score := pyRound 4 ((17/2 : ℚ) / 10),
          final_score := pyRound 4
            (6/10 * skillScore ["Python", "SQL", "React"] ["Python", "SQL"] +
              4/10 * ((17/2 : ℚ) / 10)) }
      ∧ skillScore ["Python", "SQL", "React"] ["Python", "SQL"] =
          (if (["Python", "SQL", "React"] : List String) = [] then 1 else
            (((["Python", "SQL", "React"] : List String).map lowerS).countP
                (fun s => ((["Python", "SQL"] : List String).map lowerS).contains s) : ℚ) / 3))
    ∧ pyRound 4 (6/10 * skillScore ["Python", "SQL", "React"] ["Python", "SQL"] +
        4/10 * ((17/2 : ℚ) / 10)) = 37/50 := by
  refine ⟨by decide, ?_, by decide⟩
  exact c1_scorer_formulas ⟨7, ["Python", "SQL", "React"], 6⟩ false
    ⟨1, 11, "Asha", "asha@x", "CSE", 17/2, ["Python", "SQL"], 0⟩
    (by decide) (by decide)

end

/-! ## C3 — the CGPA eligibility filter -/

/-- C3: A candidate with cgpa below the drive's `eligibility_cgpa` is
rejected with `ai_score = 0.0` and reason "CGPA below eligibility", its
rejection record reaches the run's results, and the scorer is never applied
to it (every scored candidate comes from an applicant passing the CGPA
check). -/
theorem c3_cgpa_filter (drive : Drive) (t : ℚ) (top : Option Nat) (f : Bool)
    (apps : List Applicant) (a : Applicant) (ha : a ∈ apps)
    (h : a.cgpa < drive.eligibility_cgpa) :
    processApp drive f a =
      Sum.inr ⟨a.student_id, a.name, Status.Rejected,
        RejectReason.cgpaBelowEligibility, 0⟩
    ∧ ResultEntry.rejectedEarly
        ⟨a.student_id, a.name, Status.Rejected,
          RejectReason.cgpaBelowEligibility, 0⟩
        ∈ (run_shortlisting drive t top f apps).results
    ∧ RejectReason.message RejectReason.cgpaBelowEligibility =
        "CGPA below eligibility"
    ∧ ∀ sc ∈ scoredOf drive f apps, ∃ b ∈ apps,
        ¬ b.cgpa < drive.eligibility_cgpa ∧ processApp drive f b = Sum.inl sc := by
  have hpa : processApp drive f a =
      Sum.inr ⟨a.student_id, a.name, Status.Rejected,
        RejectReason.cgpaBelowEligibility, 0⟩ := by
    unfold processApp
    rw [if_pos h]
  refine ⟨hpa, ?_, rfl, ?_⟩
  · show _ ∈ (run_shortlisting drive t top f apps).results
    have hmem := mem_rejectedOf ha hpa
    simp only [run_shortlisting]
    exact List.mem_append_left _ (List.mem_map_of_mem _ hmem)
  · intro sc hsc
    obtain ⟨b, hb, hpb⟩ := mem_scoredOf hsc
    refine ⟨b, hb, ?_, hpb⟩
    intro hlt
    rw [show processApp drive f b = Sum.inr ⟨b.student_id, b.name,
      Status.Rejected, RejectReason.cgpaBelowEligibility, 0⟩ from by
        unfold processApp; rw [if_pos hlt]] at hpb
    cases hpb

section

attribute [local semireducible] Rat.add Rat.mul Rat.inv Rat.sub Rat.ofScientific

/-- Witness for C3: Example B of the spec (cgpa 6.0 below eligibility 7.0). -/
theorem c3_cgpa_filter_witness :
    ((6 : ℚ) < 7)
    ∧ (processApp ⟨7, ["Python", "SQL", "React"], 6⟩ false
          ⟨2, 12, "Bala", "bala@x", "CSE", 6, ["Python", "SQL"], 0⟩ =
        Sum.inr ⟨12, "Bala", Status.Rejected, RejectReason.cgpaBelowEligibility, 0⟩
      ∧ ResultEntry.rejectedEarly
          ⟨12, "Bala", Status.Rejected, RejectReason.cgpaBelowEligibility, 0⟩
          ∈ (run_shortlisting ⟨7, ["Python", "SQL", "React"], 6⟩ (1/2) none false
              [⟨2, 12, "Bala", "bala@x", "CSE", 6, ["Python", "SQL"], 0⟩]).results) := by
  refine ⟨by decide, ?_⟩
  have h := c3_cgpa_filter ⟨7, ["Python", "SQL", "React"], 6⟩ (1/2) none false
    [⟨2, 12, "Bala", "bala@x", "CSE", 6, ["Python", "SQL"], 0⟩]
    ⟨2, 12, "Bala", "bala@x", "CSE", 6, ["Python", "SQL"], 0⟩
    (List.mem_singleton.mpr rfl) (by decide)
  exact ⟨h.1, h.2.1⟩

end

/-! ## C4 — the 1.7× offer filter -/

/-- C4: For a candidate passing the CGPA check, the offer filter rejects it
(with `ai_score 0` and a reason citing the offer/package comparison) if and
only if offer filtering is enabled, the package is positive, the best prior
offer is positive, and `best_offer * 1.7 > package`; a candidate with no
prior offer (best offer `0`) always proceeds to scoring. -/
theorem c4_offer_filter (drive : Drive) (f : Bool) (a : Applicant)
    (h1 : ¬ a.cgpa < drive.eligibility_cgpa) :
    (processApp drive f a =
        Sum.inr ⟨a.student_id, a.name, Status.Rejected,
          RejectReason.offerExceedsPackage a.best_offer drive.package, 0⟩
      ↔ (f = true ∧ 0 < drive.package ∧ 0 < a.best_offer ∧
          drive.package < a.best_offer * (17/10)))
    ∧ (a.best_offer = 0 → ∃ sc, processApp drive f a = Sum.inl sc) := by
  constructor
  · constructor
    · intro he
      by_contra hc
      unfold processApp at he
      rw [if_neg h1, if_neg hc] at he
      cases he
    · intro hc
      unfold processApp
      rw [if_neg h1, if_pos hc]
  · intro h0
    have hc : ¬ (f = true ∧ 0 < drive.package ∧ 0 < a.best_offer ∧
        drive.package < a.best_offer * (17/10)) := by
      rintro ⟨-, -, hb, -⟩
      rw [h0] at hb
      exact lt_irrefl 0 hb
    refine ⟨⟨a.app_id, a.student_id, a.name, a.email, a.branch, a.cgpa,
      pyRound 4 (skillScore drive.required_skills a.extracted_skills),
      pyRound 4 (a.cgpa / 10),
      pyRound 4 (6/10 * skillScore drive.required_skills a.extracted_skills +
        4/10 * (a.cgpa / 10))⟩, ?_⟩
    unfold processApp
    rw [if_neg h1, if_neg hc]

section

attribute [local semireducible] Rat.add Rat.mul Rat.inv Rat.sub Rat.ofScientific

/-- Witness for C4: Example C of the spec (package 6 LPA, best prior offer
4 LPA, `4 * 1.7 = 6.8 > 6` → rejected for offer mismatch). -/
theorem c4_offer_filter_witness :
    (¬ (8 : ℚ) < 7)
    ∧ (processApp ⟨7, ["Python", "SQL", "React"], 6⟩ true
          ⟨3, 13, "Venu", "venu@x", "ECE", 8, ["Python"], 4⟩ =
        Sum.inr ⟨13, "Venu", Status.Rejected,
          RejectReason.offerExceedsPackage 4 6, 0⟩
      ↔ (true = true ∧ (0:ℚ) < 6 ∧ (0:ℚ) < 4 ∧ (6:ℚ) < 4 * (17/10))) := by
  refine ⟨by decide, ?_⟩
  exact (c4_offer_filter ⟨7, ["Python", "SQL", "React"], 6⟩ true
    ⟨3, 13, "Venu", "venu@x", "ECE", 8, ["Python"], 4⟩ (by decide)).1

end

/-! ## Lemmas about the stable descending sort -/

theorem insertDesc_perm (x : ScoredCandidate) (l : List ScoredCandidate) :
    (insertDesc x l).Perm (x :: l) := by
  induction l with
  | nil => exact List.Perm.refl _
  | cons y ys ih =>
    unfold insertDesc
    split
    · exact List.Perm.refl _
    · exact (ih.cons y).trans (List.Perm.swap x y ys)

theorem sortByScoreDesc_perm (l : List ScoredCandidate) :
    (sortByScoreDesc l).Perm l := by
  induction l with
  | nil => exact List.Perm.refl _
  | cons x xs ih => exact (insertDesc_perm x _).trans (ih.cons x)

theorem insertDesc_pairwise {x : ScoredCandidate} {l : List ScoredCandidate}
    (h : l.Pairwise (fun a b => b.final_score ≤ a.final_score)) :
    (insertDesc x l).Pairwise (fun a b => b.final_score ≤ a.final_score) := by
  induction l with
  | nil => simp [insertDesc]
  | cons y ys ih =>
    rw [List.pairwise_cons] at h
    obtain ⟨hy, hys⟩ := h
    unfold insertDesc
    split
    · rename_i hle
      refine List.Pairwise.cons ?_ (List.Pairwise.cons hy hys)
      intro z hz
      rcases List.mem_cons.mp hz with rfl | hz2
      · exact hle
      · exact le_trans (hy z hz2) hle
    · rename_i hlt
      refine List.Pairwise.cons ?_ (ih hys)
      intro z hz
      rcases List.mem_cons.mp ((insertDesc_perm x ys).mem_iff.mp hz) with rfl | hz2
      · exact le_of_lt (lt_of_not_le hlt)
      · exact hy z hz2

theorem sortByScoreDesc_pairwise (l : List ScoredCandidate) :
    (sortByScoreDesc l).Pairwise (fun a b => b.final_score ≤ a.final_score) := by
  induction l with
  | nil => simp [sortByScoreDesc]
  | cons x xs ih => exact insertDesc_pairwise ih

theorem filter_insertDesc_neg {x : ScoredCandidate} {l : List ScoredCandidate}
    {p : ScoredCandidate → Bool} (hx : p x = false) :
    (insertDesc x l).filter p = l.filter p := by
  induction l with
  | nil => simp [insertDesc, hx]
  | cons y ys ih =>
    unfold insertDesc
    split
    · simp [List.filter_cons, hx]
    · simp [List.filter_cons, ih]

theorem filter_insertDesc_eq {x : ScoredCandidate} {l : List ScoredCandidate}
    {q : ℚ} (hx : x.final_score = q) :
    (insertDesc x l).filter (fun c => decide (c.final_score = q)) =
      x :: l.filter (fun c => decide (c.final_score = q)) := by
  induction l with
  | nil => simp [insertDesc, hx]
  | cons y ys ih =>
    unfold insertDesc
    split
    · simp [List.filter_cons, hx]
    · rename_i hlt
      have hpy : (decide (y.final_score = q)) = false := by
        simp only [decide_eq_false_iff_not]
        intro hyq
        exact hlt (le_of_eq (hyq.trans hx.symm))
      simp [List.filter_cons, hpy, ih]

theorem sortByScoreDesc_filter (l : List ScoredCandidate) (q : ℚ) :
    (sortByScoreDesc l).filter (fun c => decide (c.final_score = q)) =
      l.filter (fun c => decide (c.final_score = q)) := by
  induction l with
  | nil => rfl
  | cons x xs ih =>
    show (insertDesc x (sortByScoreDesc xs)).filter _ = _
    by_cases hx : x.final_score = q
    · rw [filter_insertDesc_eq hx, ih,
        List.filter_cons_of_pos (by simpa using hx)]
    · rw [filter_insertDesc_neg (by simpa using hx), ih,
        List.filter_cons_of_neg (by simpa using hx)]

/-! ## Lemmas about the selection step -/

theorem statusFor_eq_shortlisted_iff (t : ℚ) (top : Option Nat) (i : Nat)
    (c : ScoredCandidate) :
    statusFor t top i c = Status.Shortlisted ↔
      (t ≤ c.final_score ∧ withinTopB top i = true) := by
  unfold statusFor
  split
  · rename_i h
    exact iff_of_true rfl h
  · rename_i h
    exact iff_of_false (fun he => Status.noConfusion he) h

theorem rankedWith_get? (t : ℚ) (top : Option Nat) (l : List ScoredCandidate)
    (i : Nat) :
    (rankedWith t top l).get? i =
      (l.get? i).map (fun c => (c, statusFor t top i c)) := by
  unfold rankedWith
  rw [List.get?_map, List.get?_enum]
  cases l.get? i <;> rfl

theorem countP_enumFrom_fst_lt {α : Type} (l : List α) (s m : Nat) :
    ((List.enumFrom s l).countP (fun p => decide (p.1 < m))) ≤ m - s := by
  induction l generalizing s with
  | nil => simp
  | cons x xs ih =>
    rw [List.enumFrom_cons, List.countP_cons]
    have ihs := ih (s + 1)
    by_cases h : s < m
    · rw [decide_eq_true h, if_pos rfl]
      omega
    · rw [decide_eq_false h, if_neg Bool.false_ne_true]
      omega

theorem countP_enumFrom_snd {α : Type} (l : List α) (s : Nat) (g : α → Bool) :
    ((List.enumFrom s l).countP (fun p => g p.2)) = l.countP g := by
  induction l generalizing s with
  | nil => rfl
  | cons x xs ih =>
    rw [List.enumFrom_cons, List.countP_cons, List.countP_cons, ih (s + 1)]

theorem rankedWith_countP_le_top (t : ℚ) (k : Nat) (l : List ScoredCandidate) :
    (rankedWith t (some k) l).countP (fun p => decide (p.2 = Status.Shortlisted))
      ≤ k := by
  unfold rankedWith
  rw [List.countP_map]
  calc (l.enum).countP
        (fun p => decide ((p.2, statusFor t (some k) p.1 p.2).2 = Status.Shortlisted))
      ≤ (l.enum).countP (fun p => decide (p.1 < k)) := by
        refine List.countP_mono_left ?_
        intro p _ hp
        have hst := of_decide_eq_true hp
        have hw := ((statusFor_eq_shortlisted_iff t (some k) p.1 p.2).mp hst).2
        simpa [withinTopB] using hw
    _ ≤ k := by
        have := countP_enumFrom_fst_lt l 0 k
        simpa [List.enum] using this

theorem rankedWith_countP_le_thresh (t : ℚ) (top : Option Nat)
    (l : List ScoredCandidate) :
    (rankedWith t top l).countP (fun p => decide (p.2 = Status.Shortlisted))
      ≤ l.countP (fun c => decide (t ≤ c.final_score)) := by
  unfold rankedWith
  rw [List.countP_map]
  calc (l.enum).countP
        (fun p => decide ((p.2, statusFor t top p.1 p.2).2 = Status.Shortlisted))
      ≤ (l.enum).countP (fun p => decide (t ≤ p.2.final_score)) := by
        refine List.countP_mono_left ?_
        intro p _ hp
        have hst := of_decide_eq_true hp
        exact decide_eq_true ((statusFor_eq_shortlisted_iff t top p.1 p.2).mp hst).1
    _ = l.countP (fun c => decide (t ≤ c.final_score)) := by
        have := countP_enumFrom_snd l 0 (fun c => decide (t ≤ c.final_score))
        simpa [List.enum] using this

theorem rejectedOf_status {drive : Drive} {f : Bool} {apps : List Applicant}
    {e : RejectedEntry} (he : e ∈ rejectedOf drive f apps) :
    e.status = Status.Rejected := by
  unfold rejectedOf at he
  obtain ⟨x, hx, hxe⟩ := List.mem_filterMap.mp he
  obtain ⟨a, _, rfl⟩ := List.mem_map.mp hx
  cases hpa : processApp drive f a with
  | inl s => rw [hpa] at hxe; cases hxe
  | inr e2 =>
    rw [hpa] at hxe
    cases hxe
    exact (processApp_inr_status hpa).1

theorem results_countP_shortlisted (drive : Drive) (t : ℚ) (top : Option Nat)
    (f : Bool) (apps : List Applicant) :
    (run_shortlisting drive t top f apps).results.countP
        (fun e => decide (e.status = Status.Shortlisted)) =
      (rankedWith t top (sortByScoreDesc (scoredOf drive f apps))).countP
        (fun p => decide (p.2 = Status.Shortlisted)) := by
  simp only [run_shortlisting]
  rw [List.countP_append, List.countP_map, List.countP_map]
  have h0 : (rejectedOf drive f apps).countP
      ((fun e => decide (e.status = Status.Shortlisted)) ∘ ResultEntry.rejectedEarly)
      = 0 := by
    refine List.countP_eq_zero.mpr ?_
    intro e he
    have hst := rejectedOf_status he
    simp [ResultEntry.status, hst]
  rw [h0, Nat.zero_add]
  rfl

/-! ## C2 — the ranking & selection engine -/

/-- C2: The ranking engine stable-sorts the eligible candidates by
`final_score` descending (permutation + descending order + candidates of
equal score keep their original relative order), the candidate at 0-based
sorted index `i` is Shortlisted iff `final_score >= threshold` and
(`top_n` unset or `i < top_n`), and with `top_n = k` the number of
Shortlisted candidates never exceeds `k` nor the number of candidates with
`final_score >= threshold`. -/
theorem c2_ranking_engine (drive : Drive) (t : ℚ) (top : Option Nat) (f : Bool)
    (apps : List Applicant) :
    (sortByScoreDesc (scoredOf drive f apps)).Perm (scoredOf drive f apps)
    ∧ (sortByScoreDesc (scoredOf drive f apps)).Pairwise
        (fun a b => b.final_score ≤ a.final_score)
    ∧ (∀ q : ℚ, (sortByScoreDesc (scoredOf drive f apps)).filter
          (fun c => decide (c.final_score = q)) =
        (scoredOf drive f apps).filter (fun c => decide (c.final_score = q)))
    ∧ (∀ i c st,
        (rankedWith t top (sortByScoreDesc (scoredOf drive f apps))).get? i =
          some (c, st) →
        (st = Status.Shortlisted ↔
          (t ≤ c.final_score ∧ withinTopB top i = true)))
    ∧ (∀ k, top = some k →
        (run_shortlisting drive t top f apps).results.countP
            (fun e => decide (e.status = Status.Shortlisted)) ≤ k
        ∧ (run_shortlisting drive t top f apps).results.countP
            (fun e => decide (e.status = Status.Shortlisted)) ≤
          (scoredOf drive f apps).countP
            (fun c => decide (t ≤ c.final_score))) := by
  refine ⟨sortByScoreDesc_perm _, sortByScoreDesc_pairwise _,
    sortByScoreDesc_filter _, ?_, ?_⟩
  · intro i c st h
    rw [rankedWith_get?] at h
    cases hg : (sortByScoreDesc (scoredOf drive f apps)).get? i with
    | none => rw [hg] at h; cases h
    | some c2 =>
      rw [hg] at h
      simp only [Option.map_some', Option.some.injEq, Prod.mk.injEq] at h
      obtain ⟨rfl, rfl⟩ := h
      exact statusFor_eq_shortlisted_iff t top i _
  · intro k hk
    subst hk
    rw [results_countP_shortlisted]
    refine ⟨rankedWith_countP_le_top t k _, ?_⟩
    calc (rankedWith t (some k) (sortByScoreDesc (scoredOf drive f apps))).countP
          (fun p => decide (p.2 = Status.Shortlisted))
        ≤ (sortByScoreDesc (scoredOf drive f apps)).countP
            (fun c => decide (t ≤ c.final_score)) :=
          rankedWith_countP_le_thresh t (some k) _
      _ = (scoredOf drive f apps).countP (fun c => decide (t ≤ c.final_score)) :=
          (sortByScoreDesc_perm _).countP_eq _

section

attribute [local semireducible] Rat.add Rat.mul Rat.inv Rat.sub Rat.ofScientific

/-- Witness for C2: a two-candidate batch with `threshold = 0.5` and
`top_n = 1`; the top-ranked candidate (final 0.92) is Shortlisted and the
shortlist size obeys the cap. -/
theorem c2_ranking_engine_witness :
    ((rankedWith (1/2) (some 1) (sortByScoreDesc (scoredOf ⟨7, ["Python"], 0⟩
        false [⟨1, 11, "A", "a", "c", 8, ["Python"], 0⟩,
          ⟨2, 12, "B", "b", "c", 9, [], 0⟩]))).get? 0 =
      some (⟨1, 11, "A", "a", "c", 8, 1, 4/5, 23/25⟩, Status.Shortlisted))
    ∧ (Status.Shortlisted = Status.Shortlisted ↔
        ((1:ℚ)/2 ≤ (23:ℚ)/25 ∧ withinTopB (some 1) 0 = true))
    ∧ (run_shortlisting ⟨7, ["Python"], 0⟩ (1/2) (some 1) false
        [⟨1, 11, "A", "a", "c", 8, ["Python"], 0⟩,
          ⟨2, 12, "B", "b", "c", 9, [], 0⟩]).results.countP
        (fun e => decide (e.status = Status.Shortlisted)) ≤ 1 := by
  refine ⟨by decide, ?_, ?_⟩
  · exact (c2_ranking_engine ⟨7, ["Python"], 0⟩ (1/2) (some 1) false
      [⟨1, 11, "A", "a", "c", 8, ["Python"], 0⟩,
        ⟨2, 12, "B", "b", "c", 9, [], 0⟩]).2.2.2.1 0
      ⟨1, 11, "A", "a", "c", 8, 1, 4/5, 23/25⟩ Status.Shortlisted (by decide)
  · exact ((c2_ranking_engine ⟨7, ["Python"], 0⟩ (1/2) (some 1) false
      [⟨1, 11, "A", "a", "c", 8, ["Python"], 0⟩,
        ⟨2, 12, "B", "b", "c", 9, [], 0⟩]).2.2.2.2 1 rfl).1

end

/-! ## ASCII case-mapping lemmas for `Char.toLower`/`Char.toUpper` -/

theorem char_toNat_ofNat {m : Nat} (h : m.isValidChar) :
    (Char.ofNat m).toNat = m := by
  rw [Char.ofNat, dif_pos h]; rfl

theorem char_isUpper_iff (c : Char) :
    c.isUpper = true ↔ 65 ≤ c.toNat ∧ c.toNat ≤ 90 := by
  simp [Char.isUpper, UInt32.le_def, BitVec.le_def, Char.toNat, UInt32.toNat]

theorem char_isLower_iff (c : Char) :
    c.isLower = true ↔ 97 ≤ c.toNat ∧ c.toNat ≤ 122 := by
  simp [Char.isLower, UInt32.le_def, BitVec.le_def, Char.toNat, UInt32.toNat]

theorem char_toLower_of_not_upper {c : Char}
    (h : ¬ (65 ≤ c.toNat ∧ c.toNat ≤ 90)) : c.toLower = c := by
  rw [Char.toLower, if_neg h]

theorem char_toLower_of_upper {c : Char} (h : 65 ≤ c.toNat ∧ c.toNat ≤ 90) :
    c.toLower = Char.ofNat (c.toNat + 32) := by
  rw [Char.toLower, if_pos h]

theorem char_toNat_toLower_of_upper {c : Char}
    (h : 65 ≤ c.toNat ∧ c.toNat ≤ 90) : (c.toLower).toNat = c.toNat + 32 := by
  rw [char_toLower_of_upper h, char_toNat_ofNat]
  exact Or.inl (by omega)

theorem char_toLower_toLower (c : Char) : c.toLower.toLower = c.toLower := by
  by_cases h : 65 ≤ c.toNat ∧ c.toNat ≤ 90
  · have h2 := char_toNat_toLower_of_upper h
    rw [char_toLower_of_not_upper (by omega)]
  · rw [char_toLower_of_not_upper h, char_toLower_of_not_upper h]

theorem char_isAlpha_toLower (c : Char) : c.toLower.isAlpha = c.isAlpha := by
  unfold Char.isAlpha
  by_cases h : 65 ≤ c.toNat ∧ c.toNat ≤ 90
  · have h2 := char_toNat_toLower_of_upper h
    have hu : c.isUpper = true := (char_isUpper_iff c).2 h
    have hu2 : c.toLower.isUpper = false := by
      rw [Bool.eq_false_iff]
      intro hx
      have := (char_isUpper_iff c.toLower).1 hx
      omega
    have hl2 : c.toLower.isLower = true := (char_isLower_iff _).2 (by omega)
    rw [hu, hu2, hl2]
    rfl
  · rw [char_toLower_of_not_upper h]

theorem char_toUpper_of_lower {c : Char} (h : 97 ≤ c.toNat ∧ c.toNat ≤ 122) :
    c.toUpper = Char.ofNat (c.toNat - 32) := by
  rw [Char.toUpper, if_pos h]

theorem char_toUpper_of_not_lower {c : Char}
    (h : ¬ (97 ≤ c.toNat ∧ c.toNat ≤ 122)) : c.toUpper = c := by
  rw [Char.toUpper, if_neg h]

theorem char_toUpper_toLower (c : Char) : c.toLower.toUpper = c.toUpper := by
  by_cases h : 65 ≤ c.toNat ∧ c.toNat ≤ 90
  · have h2 := char_toNat_toLower_of_upper h
    have h3 : 97 ≤ c.toLower.toNat ∧ c.toLower.toNat ≤ 122 := by omega
    have h4 : ¬ (97 ≤ c.toNat ∧ c.toNat ≤ 122) := by omega
    rw [char_toUpper_of_lower h3, char_toUpper_of_not_lower h4, h2]
    have h5 : c.toNat + 32 - 32 = c.toNat := by omega
    rw [h5, Char.ofNat_toNat]
  · rw [char_toLower_of_not_upper h]

theorem char_toLower_of_not_alpha {c : Char} (h : c.isAlpha = false) :
    c.toLower = c := by
  refine char_toLower_of_not_upper ?_
  intro hu
  have : c.isUpper = true := (char_isUpper_iff c).2 hu
  unfold Char.isAlpha at h
  rw [this] at h
  cases h

/-! ## `str.title()` is insensitive to prior lower-casing -/

theorem titleChars_map_toLower (l : List Char) (b : Bool) :
    titleChars (l.map Char.toLower) b = titleChars l b := by
  induction l generalizing b with
  | nil => rfl
  | cons c cs ih =>
    simp only [List.map_cons, titleChars]
    rw [char_isAlpha_toLower, ih]
    congr 1
    by_cases ha : c.isAlpha = true
    · rw [if_pos ha, if_pos ha]
      cases b
      · simp [char_toUpper_toLower]
      · simp [char_toLower_toLower]
    · have ha2 : c.isAlpha = false := Bool.eq_false_iff.mpr ha
      rw [if_neg ha, if_neg ha, char_toLower_of_not_alpha ha2]

theorem titleS_lowerS (s : String) : titleS (lowerS s) = titleS s := by
  unfold titleS lowerS
  exact congrArg String.mk (titleChars_map_toLower s.data false)

/-! ## C5 — the line classifier -/

/-- Turns the if-chain of the classifier into a boolean disjunction. -/
theorem ite_or_chain (b1 b2 b3 b4 : Bool) :
    (if b1 then true else if b2 then true else if b3 then true
     else if b4 then true else false) = (b1 || b2 || b3 || b4) := by
  cases b1 <;> cases b2 <;> cases b3 <;> cases b4 <;> rfl

/-- C5 counterexample: the code classifies "Theater Booking System" as a
Description because `startswith` treats the verb "The" as a prefix of
"Theater", although the line's first word "Theater" is not in the verb
list and no other Description rule applies — the claim says such a line is
a Title. -/
theorem c5_counterexample :
    is_description_line "Theater Booking System" = true
    ∧ trimChars "Theater Booking System".data = "Theater Booking System".data
    ∧ (trimChars "Theater Booking System".data).takeWhile
        (fun c => !c.isWhitespace) = "Theater".data
    ∧ "Theater" ∉ actionVerbs
    ∧ bulletChars.contains 'T' = false
    ∧ 'T'.isLower = false
    ∧ ¬ ("Theater Booking System".data.length > 80) := by decide

/-- C5 (amended): the classifier applies its rules in order with first
match winning — blank line, bullet/symbol prefix, lowercase first letter,
*line starts with one of the fixed verb strings (a prefix match, not a
first-word match)*, and length > 80 without the separator characters each
yield Description; a line matching none of these yields Title. -/
theorem c5_line_classifier (line : String) :
    is_description_line line = true ↔
      (trimChars line.data = []
       ∨ bulletChars.contains (trimChars line.data).headI = true
       ∨ ((trimChars line.data).headI).isLower = true
       ∨ (∃ v, v ∈ actionVerbs ∧
            v.data.isPrefixOf (trimChars line.data) = true)
       ∨ ((trimChars line.data).length > 80 ∧
           (trimChars line.data).any (fun ch => sepChars.contains ch) = false)) := by
  simp only [is_description_line]
  by_cases h0 : trimChars line.data = []
  · rw [if_pos h0]
    simp [h0]
  · rw [if_neg h0, ite_or_chain]
    simp only [Bool.or_eq_true, decide_eq_true_eq, Bool.and_eq_true,
      Bool.not_eq_true', List.any_eq_true]
    constructor
    · rintro (((h1 | h2) | he) | h4)
      · exact Or.inr (Or.inl h1)
      · exact Or.inr (Or.inr (Or.inl h2))
      · exact Or.inr (Or.inr (Or.inr (Or.inl he)))
      · exact Or.inr (Or.inr (Or.inr (Or.inr h4)))
    · rintro (hn | h1 | h2 | he | h4)
      · exact absurd hn h0
      · exact Or.inl (Or.inl (Or.inl h1))
      · exact Or.inl (Or.inl (Or.inr h2))
      · exact Or.inl (Or.inr he)
      · exact Or.inr h4

/-! ## C6 — the projects region is never re-opened after a section header -/

/-- C6 counterexample: after a "Projects" region is closed by "Education",
the loop `break`s, so the titled line after a second "Projects" heading is
NOT extracted — the claim says it would be. -/
theorem c6_counterexample :
    extract_projects "Projects\nAlpha System\nEducation\nProjects\nBeta System" =
      [⟨"Alpha System", ""⟩]
    ∧ Project.mk "Beta System" "" ∉
        extract_projects "Projects\nAlpha System\nEducation\nProjects\nBeta System"
    ∧ projectSectionMatch (trimChars "Projects".data) = true
    ∧ sectionHeaderMatch (trimChars "Education".data) = true
    ∧ is_description_line "Beta System" = false := by decide

/-- C6 (amended): the extractor tracks the inside-projects-region flag and
lines outside the region produce no project records; but a line matching
another known section header while inside the region terminates the scan
entirely (Python `break`), so ALL later lines — including a second
"Projects" alias and anything after it — are ignored rather than
re-opening the region. -/
theorem c6_region_tracking :
    (∀ (lines : List String) (cur : Option Project) (acc : List Project),
        (∀ l ∈ lines, projectSectionMatch (trimChars l.data) = false) →
        projLoop lines false cur acc = acc ++ cur.toList)
    ∧ (∀ (line : String) (rest rest2 : List String) (cur : Option Project)
          (acc : List Project),
        trimChars line.data ≠ [] →
        projectSectionMatch (trimChars line.data) = false →
        sectionHeaderMatch (trimChars line.data) = true →
        projLoop (line :: rest) true cur acc = acc ++ cur.toList
        ∧ projLoop (line :: rest) true cur acc =
            projLoop (line :: rest2) true cur acc) := by
  constructor
  · intro lines
    induction lines with
    | nil => intro cur acc _; rfl
    | cons l ls ih =>
      intro cur acc hno
      simp only [projLoop]
      by_cases hb : trimChars l.data = []
      · rw [if_pos hb]
        exact ih cur acc (fun x hx => hno x (List.mem_cons_of_mem _ hx))
      · rw [if_neg hb,
          if_neg (by simp [hno l (List.mem_cons_self l ls)]),
          if_pos (show (!false) = true from rfl)]
        exact ih cur acc (fun x hx => hno x (List.mem_cons_of_mem _ hx))
  · intro line rest rest2 cur acc h1 h2 h3
    have hstep : ∀ r : List String,
        projLoop (line :: r) true cur acc = acc ++ cur.toList := by
      intro r
      simp only [projLoop]
      rw [if_neg h1, if_neg (by simp [h2]), if_neg (by simp), if_pos h3]
    exact ⟨hstep rest, (hstep rest).trans (hstep rest2).symm⟩

/-- Witness for C6 (amended), at concrete inputs: lines with no project
alias leave the accumulated state untouched, and an "Education" line inside
the region ends the scan regardless of what follows. -/
theorem c6_region_tracking_witness :
    projLoop ["Intro text", "Contact: me"] false (some ⟨"P", ""⟩) [] =
      [] ++ (some (Project.mk "P" "")).toList
    ∧ projLoop ["Education", "Beta System"] true (some ⟨"P", ""⟩) [] =
      [] ++ (some (Project.mk "P" "")).toList := by
  refine ⟨c6_region_tracking.1 ["Intro text", "Contact: me"]
    (some ⟨"P", ""⟩) [] (by decide), ?_⟩
  exact (c6_region_tracking.2 "Education" ["Beta System"] [] (some ⟨"P", ""⟩) []
    (by decide) (by decide) (by decide)).1

/-! ## C7 — building project records inside the region -/

/-- C7: inside the region a Title line flushes the in-progress project and
starts a new one (name = stripped line truncated to 150 characters, empty
description); a Description line with a non-empty cleaned text appends it
to the current project's description joined by " • "; the in-progress
project is emitted at end of input; and Example D of the spec produces
exactly one record. -/
theorem c7_project_building :
    (∀ (inSec : Bool) (cur : Option Project) (acc : List Project),
        projLoop [] inSec cur acc = acc ++ cur.toList)
    ∧ (∀ (line : String) (rest : List String) (cur : Option Project)
          (acc : List Project),
        trimChars line.data ≠ [] →
        projectSectionMatch (trimChars line.data) = false →
        sectionHeaderMatch (trimChars line.data) = false →
        is_description_line line = false →
        projLoop (line :: rest) true cur acc =
          projLoop rest true (some ⟨⟨(trimChars line.data).take 150⟩, ""⟩)
            (acc ++ cur.toList))
    ∧ (∀ (line : String) (rest : List String) (p : Project) (acc : List Project),
        trimChars line.data ≠ [] →
        projectSectionMatch (trimChars line.data) = false →
        sectionHeaderMatch (trimChars line.data) = false →
        is_description_line line = true →
        cleanDesc (trimChars line.data) ≠ [] →
        projLoop (line :: rest) true (some p) acc =
          projLoop rest true
            (some (appendDesc p ⟨cleanDesc (trimChars line.data)⟩)) acc)
    ∧ (∀ (p : Project) (clean : String),
        (p.desc = "" → appendDesc p clean = ⟨p.name, clean⟩)
        ∧ (p.desc ≠ "" → appendDesc p clean = ⟨p.name, p.desc ++ " • " ++ clean⟩))
    ∧ extract_projects
        "Projects\nLibrary Management System\n• Built using Java and MySQL" =
      [⟨"Library Management System", "Built using Java and MySQL"⟩] := by
  refine ⟨?_, ?_, ?_, ?_, by decide⟩
  · intro inSec cur acc
    rfl
  · intro line rest cur acc h1 h2 h3 h4
    simp only [projLoop]
    rw [if_neg h1, if_neg (by simp [h2]), if_neg (by simp),
      if_neg (by simp [h3]), if_neg (by simp [h4])]
  · intro line rest p acc h1 h2 h3 h4 h5
    simp only [projLoop]
    rw [if_neg h1, if_neg (by simp [h2]), if_neg (by simp),
      if_neg (by simp [h3]), if_pos h4]
    show (if cleanDesc (trimChars line.data) ≠ [] then
        projLoop rest true
          (some (appendDesc p ⟨cleanDesc (trimChars line.data)⟩)) acc
      else projLoop rest true (some p) acc) = _
    rw [if_pos h5]
  · intro p clean
    constructor
    · intro hd
      unfold appendDesc
      rw [if_neg (by simp [hd])]
    · intro hd
      unfold appendDesc
      rw [if_pos hd]

/-- Witness for C7 at concrete inputs: a Title step, a Description step,
and the end-of-input flush. -/
theorem c7_project_building_witness :
    projLoop [] true (some ⟨"P", "d"⟩) [⟨"Q", ""⟩] =
      [⟨"Q", ""⟩] ++ (some (Project.mk "P" "d")).toList
    ∧ projLoop ["Alpha System"] true (some ⟨"P", "d"⟩) [] =
        projLoop [] true
          (some ⟨⟨(trimChars "Alpha System".data).take 150⟩, ""⟩)
          ([] ++ (some (Project.mk "P" "d")).toList)
    ∧ projLoop ["• Built using Java"] true (some ⟨"P", ""⟩) [] =
        projLoop [] true
          (some (appendDesc ⟨"P", ""⟩ ⟨cleanDesc (trimChars "• Built using Java".data)⟩)) [] := by
  refine ⟨c7_project_building.1 true (some ⟨"P", "d"⟩) [⟨"Q", ""⟩], ?_, ?_⟩
  · exact c7_project_building.2.1 "Alpha System" [] (some ⟨"P", "d"⟩) []
      (by decide) (by decide) (by decide) (by decide)
  · exact c7_project_building.2.2.1 "• Built using Java" [] ⟨"P", ""⟩ []
      (by decide) (by decide) (by decide) (by decide) (by decide)

/-! ## C8 — keyword matching against the vocabulary -/

/-- Unrolling the fold of the keyword step into filter-and-map form. -/
theorem extract_skills_keyword_eq (text : String) :
    extract_skills_keyword text =
      (SKILL_LIST.filter
        (fun s => searchWord s.data (lowerS text).data)).map titleS := by
  have h : ∀ (l : List String) (acc : List String),
      l.foldl (fun acc skill =>
        if searchWord skill.data (lowerS text).data then acc ++ [titleS skill]
        else acc) acc =
      acc ++ (l.filter (fun s => searchWord s.data (lowerS text).data)).map titleS := by
    intro l
    induction l with
    | nil => intro acc; simp
    | cons x xs ih =>
      intro acc
      simp only [List.foldl_cons, List.filter_cons]
      by_cases hx : searchWord x.data (lowerS text).data = true
      · rw [if_pos hx, if_pos hx, ih (acc ++ [titleS x]), List.map_cons]
        simp
      · rw [if_neg hx, if_neg hx]
        exact ih acc
  simpa using h SKILL_LIST []

/-- The title-cased vocabulary entries are pairwise distinct. -/
theorem skill_titles_nodup : (SKILL_LIST.map titleS).Nodup := by decide

/-- C8 counterexample: "c++" occurs as a whole phrase in
"skilled in c++ and java" (spaces on both sides), yet the code's pattern
`\bc\+\+\b` does not match — the trailing `\b` after `+` demands a word
character — so "C++" is never added, falsifying the claim's
"exactly when" at this input. -/
theorem c8_counterexample :
    specOccursWholePhrase "c++".data (lowerS "Skilled in C++ and Java").data = true
    ∧ "c++" ∈ SKILL_LIST
    ∧ titleS "c++" = "C++"
    ∧ "C++" ∉ extract_skills_keyword "Skilled in C++ and Java"
    ∧ "C++" ∉ extract_skills "Skilled in C++ and Java" [] := by decide

/-- C8 (amended): a vocabulary phrase's title-cased form is added exactly
when the Python regex `\b…\b` pattern matches the lowercased text — for
phrases made of word characters this is whole-word occurrence, but a
phrase that starts/ends in a non-word character (e.g. "c++", "c#") needs a
word character adjacent to that end, so "c++" surrounded by spaces is NOT
matched; single-letter tokens still never match inside a longer word
("react" yields only ["React"], not "C"). -/
theorem c8_keyword_matching (text : String) (s : String) (hs : s ∈ SKILL_LIST) :
    (titleS s ∈ extract_skills_keyword text ↔
      searchWord s.data (lowerS text).data = true)
    ∧ extract_skills_keyword "react" = ["React"] := by
  refine ⟨?_, by decide⟩
  rw [extract_skills_keyword_eq]
  constructor
  · intro hm
    obtain ⟨x, hx, hxe⟩ := List.mem_map.mp hm
    have hx2 := List.mem_filter.mp hx
    have hxs : x = s :=
      List.inj_on_of_nodup_map skill_titles_nodup hx2.1 hs hxe
    rw [← hxs]
    exact hx2.2
  · intro hsw
    exact List.mem_map_of_mem titleS (List.mem_filter.mpr ⟨hs, hsw⟩)

/-- Witness for C8 (amended) at a concrete vocabulary entry and text. -/
theorem c8_keyword_matching_witness :
    ("python" ∈ SKILL_LIST)
    ∧ (titleS "python" ∈ extract_skills_keyword "I like Python" ↔
        searchWord "python".data (lowerS "I like Python").data = true) :=
  ⟨by decide, (c8_keyword_matching "I like Python" "python" (by decide)).1⟩

/-! ## C9 — the skill gap analyzer -/

section

attribute [local semireducible] Rat.add Rat.mul Rat.inv Rat.sub Rat.ofScientific

/-- C9 counterexample: with 3 required skills and 1 matched, the code
returns `round(100/3, 2) = 33.33`, not `100 * 1 / 3` exactly, because
`analyze_skill_gap` rounds `match_percentage` to 2 decimal places. -/
theorem c9_counterexample :
    (analyze_skill_gap ["Python", "Java", "C"] ["python"]).matched_skills =
      ["Python"]
    ∧ (analyze_skill_gap ["Python", "Java", "C"] ["python"]).match_percentage =
      3333/100
    ∧ (3333 : ℚ)/100 ≠ 100 * 1 / 3 := by decide

/-- C9 (amended): `matched` are the required skills present
case-insensitively in the candidate skills in requirement order, `missing`
the ones absent; `match_percentage` is 100.0 for an empty requirement list
and otherwise `round(100·|matched|/|required|, 2)` — the exact ratio
rounded to two decimal places. -/
theorem c9_gap_analyzer (required extracted : List String) :
    (analyze_skill_gap required extracted).matched_skills =
      required.filter (fun s => (extracted.map lowerS).contains (lowerS s))
    ∧ (analyze_skill_gap required extracted).missing_skills =
      required.filter (fun s => !(extracted.map lowerS).contains (lowerS s))
    ∧ (required = [] →
        (analyze_skill_gap required extracted).match_percentage = 100)
    ∧ (required ≠ [] →
        (analyze_skill_gap required extracted).match_percentage =
          pyRound 2 (100 *
            ((required.filter
              (fun s => (extracted.map lowerS).contains (lowerS s))).length : ℚ) /
            required.length)) := by
  refine ⟨rfl, rfl, ?_, ?_⟩
  · intro h
    simp only [analyze_skill_gap]
    rw [if_neg (not_not_intro h)]
    decide
  · intro h
    simp only [analyze_skill_gap]
    rw [if_pos h]
    congr 1
    ring

/-- Witness for C9 (amended) at the counterexample's inputs and at an
empty requirement list. -/
theorem c9_gap_analyzer_witness :
    ((["Python", "Java", "C"] : List String) ≠ [])
    ∧ (analyze_skill_gap ["Python", "Java", "C"] ["python"]).match_percentage =
        pyRound 2 (100 *
          (((["Python", "Java", "C"] : List String).filter
            (fun s => ((["python"] : List String).map lowerS).contains
              (lowerS s))).length : ℚ) /
          (["Python", "Java", "C"] : List String).length)
    ∧ (analyze_skill_gap [] ["python"]).match_percentage = 100 := by
  refine ⟨by decide, ?_, (c9_gap_analyzer [] ["python"]).2.2.1 rfl⟩
  exact (c9_gap_analyzer ["Python", "Java", "C"] ["python"]).2.2.2 (by decide)

end

/-! ## C10 — invariants of the full skill extraction -/

/-- C10: every element of `extract_skills` (keyword step plus NER
augmentation) is the title-cased form of some vocabulary phrase, and the
returned list has no duplicates. -/
theorem c10_extract_skills_invariant (text : String) (ents : List Ent) :
    (∀ x ∈ extract_skills text ents, ∃ s ∈ SKILL_LIST, x = titleS s)
    ∧ (extract_skills text ents).Nodup := by
  have hstep1a : ∀ x ∈ extract_skills_keyword text,
      ∃ s ∈ SKILL_LIST, x = titleS s := by
    intro x hx
    rw [extract_skills_keyword_eq] at hx
    obtain ⟨s, hs, rfl⟩ := List.mem_map.mp hx
    exact ⟨s, List.mem_of_mem_filter hs, rfl⟩
  have hstep1b : (extract_skills_keyword text).Nodup := by
    rw [extract_skills_keyword_eq]
    exact skill_titles_nodup.sublist ((List.filter_sublist _).map titleS)
  have hfold : ∀ (es : List Ent) (acc : List String),
      (∀ x ∈ acc, ∃ s ∈ SKILL_LIST, x = titleS s) → acc.Nodup →
      (∀ x ∈ es.foldl (fun acc e =>
          if e.label = "ORG" ∨ e.label = "PRODUCT" then
            if (SKILL_LIST.map lowerS).contains (lowerS (stripS e.text)) then
              if acc.contains (titleS (stripS e.text)) then acc
              else acc ++ [titleS (stripS e.text)]
            else acc
          else acc) acc, ∃ s ∈ SKILL_LIST, x = titleS s)
      ∧ (es.foldl (fun acc e =>
          if e.label = "ORG" ∨ e.label = "PRODUCT" then
            if (SKILL_LIST.map lowerS).contains (lowerS (stripS e.text)) then
              if acc.contains (titleS (stripS e.text)) then acc
              else acc ++ [titleS (stripS e.text)]
            else acc
          else acc) acc).Nodup := by
    intro es
    induction es with
    | nil => intro acc h1 h2; exact ⟨h1, h2⟩
    | cons e es ih =>
      intro acc h1 h2
      simp only [List.foldl_cons]
      by_cases hl : e.label = "ORG" ∨ e.label = "PRODUCT"
      · rw [if_pos hl]
        by_cases hc : (SKILL_LIST.map lowerS).contains (lowerS (stripS e.text)) = true
        · rw [if_pos hc]
          by_cases hm : acc.contains (titleS (stripS e.text)) = true
          · rw [if_pos hm]
            exact ih acc h1 h2
          · rw [if_neg hm]
            refine ih _ ?_ ?_
            · intro x hx
              rcases List.mem_append.mp hx with hxa | hxn
              · exact h1 x hxa
              · have hx2 : x = titleS (stripS e.text) := List.mem_singleton.mp hxn
                have hmem : lowerS (stripS e.text) ∈ SKILL_LIST.map lowerS :=
                  List.elem_iff.mp hc
                obtain ⟨s, hs, hse⟩ := List.mem_map.mp hmem
                refine ⟨s, hs, ?_⟩
                rw [hx2, ← titleS_lowerS (stripS e.text), ← hse, titleS_lowerS]
            · have hno : titleS (stripS e.text) ∉ acc := by
                intro hmem2
                exact hm (List.elem_iff.mpr hmem2)
              simp [List.nodup_append, h2, hno]
        · rw [if_neg hc]
          exact ih acc h1 h2
      · rw [if_neg hl]
        exact ih acc h1 h2
  unfold extract_skills
  exact hfold ents (extract_skills_keyword text) hstep1a hstep1b

/-- Witness for C10 at a concrete text and entity list: the NER-added
"Tensorflow" is the title of a vocabulary phrase and the result list is
duplicate-free. -/
theorem c10_extract_skills_invariant_witness :
    (∃ s ∈ SKILL_LIST, "Tensorflow" = titleS s)
    ∧ (extract_skills "I know Java and PyTorch"
        [⟨"ORG", "  TENSORFLOW "⟩, ⟨"PRODUCT", "java"⟩]).Nodup := by
  refine ⟨?_, (c10_extract_skills_invariant "I know Java and PyTorch"
    [⟨"ORG", "  TENSORFLOW "⟩, ⟨"PRODUCT", "java"⟩]).2⟩
  exact (c10_extract_skills_invariant "I know Java and PyTorch"
    [⟨"ORG", "  TENSORFLOW "⟩, ⟨"PRODUCT", "java"⟩]).1 "Tensorflow" (by decide)
